import Mathlib

/-
Verification of the log-processing pipeline and remote-sink filters of the
python-sentry-logger-wrapper repository.

The embedding models a log event the way the source manipulates it: an
ordered mapping from text keys to values (text, integer, boolean, nested
mapping, or the unit value None), i.e. an insertion-ordered association
list, with lookup, membership, pop and item assignment following the
semantics of an ordered hash map with unique keys.  Fallible code (a
statement that can raise) is embedded in the Except monad; a processor or
filter that cannot raise is embedded as a plain function.
-/

set_option autoImplicit false

/-- A value stored in a log event: text, integer, boolean, nested mapping,
or the distinguished unit value (None in the source language). -/
inductive Value where
  | str (s : String)
  | int (n : Int)
  | bool (b : Bool)
  | dict (d : List (String × Value))
  | none
  deriving Repr

/-- A log event: an insertion-ordered mapping from field names to values. -/
abbrev EventDict := List (String × Value)

/-- Truthiness of a value: empty text, zero, false, the empty mapping and
None are falsy; everything else is truthy. -/
def pyTruthy : Value → Bool
  | .str s => !(s == "")
  | .int n => !(n == 0)
  | .bool b => b
  | .dict d => !d.isEmpty
  | .none => false

/-- Equality comparison of a value against a text literal: a non-text value
never equals a text literal. -/
def valueEqStr (v : Value) (s : String) : Bool :=
  match v with
  | .str t => t == s
  | _ => false

/-- Whether the first list is an initial segment of the second. -/
def listHasPre (needle : List Char) (l : List Char) : Bool :=
  match needle, l with
  | [], _ => true
  | _ :: _, [] => false
  | n :: ns, c :: cs => n == c && listHasPre ns cs

/-- Whether the first list occurs contiguously inside the second. -/
def listOccurs (needle : List Char) (l : List Char) : Bool :=
  match l with
  | [] => needle.isEmpty
  | _ :: cs => listHasPre needle l || listOccurs needle cs

/-- Substring containment test (the `needle in hay` test on text). -/
def strOccurs (needle hay : String) : Bool :=
  listOccurs needle.data hay.data

/-- Splitting a character list on a separator character; always yields at
least one (possibly empty) segment. -/
def splitChar (sep : Char) : List Char → List Char → List (List Char)
  | [], acc => [acc.reverse]
  | c :: cs, acc => if c == sep then acc.reverse :: splitChar sep cs [] else splitChar sep cs (c :: acc)

/-- Splitting a text on a separator character (the `split` text method
with a one-character separator). -/
def strSplit (sep : Char) (s : String) : List String :=
  (splitChar sep s.data []).map String.mk

/-- ASCII upper-casing of a text (the `upper` text method). -/
def strUpper (s : String) : String :=
  String.mk (s.data.map Char.toUpper)

/-- ASCII lower-casing of a text (the `lower` text method). -/
def strLower (s : String) : String :=
  String.mk (s.data.map Char.toLower)

/-- Whether a field name starts with the internal-marker character (the
`startswith` test on the underscore). -/
def internalKey (k : String) : Bool :=
  match k.data with
  | c :: _ => c == '_'
  | [] => false

/-- Mapping lookup: value at the first matching key, if any
(dictionary `get` returning None when absent). -/
def dget (d : EventDict) (k : String) : Option Value :=
  match d with
  | [] => Option.none
  | (k', v) :: rest => if k' = k then some v else dget rest k

/-- Mapping lookup with a default (dictionary `get(k, default)`). -/
def dgetD (d : EventDict) (k : String) (v₀ : Value) : Value :=
  (dget d k).getD v₀

/-- Key membership test (the `k in d` test). -/
def dmem (d : EventDict) (k : String) : Bool :=
  (dget d k).isSome

/-- Key removal (dictionary `pop`): drops every entry at the key. -/
def dpop (d : EventDict) (k : String) : EventDict :=
  d.filter (fun p => !(p.1 == k))

/-- Item assignment (`d[k] = v`): replaces the value in place at the first
occurrence of the key, or appends a new entry at the end when absent. -/
def dset (d : EventDict) (k : String) (v : Value) : EventDict :=
  match d with
  | [] => [(k, v)]
  | (k', v') :: rest => if k' = k then (k, v) :: rest else (k', v') :: dset rest k v

/-! ## Embedding of src/python_sentry_logger_wrapper/_processors.py -/

/-- The fixed set of standard field names (STANDARD_FIELDS). -/
def STANDARD_FIELDS : List String :=
  ["timestamp", "log_level", "service_name", "message", "trace_id", "logger"]

/-- Membership in STANDARD_FIELDS. -/
def standardField (k : String) : Bool :=
  STANDARD_FIELDS.contains k

/-- remove_processors_meta_safe: pops the two internal bookkeeping keys,
tolerating their absence. -/
def remove_processors_meta_safe (event_dict : EventDict) : EventDict :=
  dpop (dpop event_dict "_record") "_from_structlog"

/-- First block of rename_and_flatten_fields: when `event` is present it
is popped and its value assigned to `message`. -/
def rename_event_step (event_dict : EventDict) : EventDict :=
  match dget event_dict "event" with
  | some v => dset (dpop event_dict "event") "message" v
  | Option.none => event_dict

/-- Second block of rename_and_flatten_fields: when `logger_name` is
present it is popped and re-assigned to itself (which moves the entry to
the end of the insertion order). -/
def rename_logger_step (event_dict : EventDict) : EventDict :=
  match dget event_dict "logger_name" with
  | some v => dset (dpop event_dict "logger_name") "logger_name" v
  | Option.none => event_dict

/-- rename_and_flatten_fields: moves `event` to `message`, re-assigns
`logger_name` to itself, and moves `level` to `log_level` upper-cased.
The upper-casing raises (AttributeError) when the `level` value is not
text, so the stage is embedded in Except. -/
def rename_and_flatten_fields (event_dict : EventDict) : Except String EventDict :=
  match dget (rename_logger_step (rename_event_step event_dict)) "level" with
  | some (.str s) =>
    .ok (dset (dpop (rename_logger_step (rename_event_step event_dict)) "level")
          "log_level" (.str (strUpper s)))
  | some _ => .error "AttributeError"
  | Option.none => .ok (rename_logger_step (rename_event_step event_dict))

/-- The external tracing context observed by the trace enricher: the
current scope may be falsy, the traceparent lookup may raise, return
None, or return a header text. -/
inductive TraceCtx where
  | noScope
  | lookupError
  | noHeader
  | header (tp : String)

/-- add_sentry_trace_id: on a truthy scope with a truthy traceparent, the
header is split on the hyphen and the first two segments become
`trace_id` and `span_id`; every failure (falsy scope, lookup error,
absent or empty header, fewer than two segments causing an IndexError) is
caught by the broad exception handler, which only prints a diagnostic and
returns the event as is.  Both assignments happen after both segment
reads, so a failing second read mutates nothing. -/
def add_sentry_trace_id (ctx : TraceCtx) (event_dict : EventDict) : EventDict :=
  match ctx with
  | .noScope => event_dict
  | .lookupError => event_dict
  | .noHeader => event_dict
  | .header tp =>
    if tp = "" then event_dict
    else
      match strSplit '-' tp with
      | t :: s :: _ =>
        dset (dset event_dict "trace_id" (.str t)) "span_id" (.str s)
      | _ => event_dict

/-- The loop of nest_custom_fields: iterates over a snapshot of the keys,
popping internal keys, keeping standard keys, and moving every other key
into the details accumulator. -/
def nest_loop : List String → EventDict → EventDict → EventDict × EventDict
  | [], event_dict, details => (event_dict, details)
  | k :: ks, event_dict, details =>
    if internalKey k then nest_loop ks (dpop event_dict k) details
    else if standardField k then nest_loop ks event_dict details
    else
      match dget event_dict k with
      | some v => nest_loop ks (dpop event_dict k) (dset details k v)
      | Option.none => nest_loop ks event_dict details

/-- nest_custom_fields: drops internal keys, moves non-standard keys into
a fresh `details` mapping, and attaches it only when non-empty. -/
def nest_custom_fields (event_dict : EventDict) : EventDict :=
  let r := nest_loop (event_dict.map Prod.fst) event_dict []
  if r.2.isEmpty then r.1 else dset r.1 "details" (.dict r.2)

/-! ## Embedding of the filter closures in src/python_sentry_logger_wrapper/core.py -/

/-- The table mapping severity labels to numeric logging levels inside
before_send_log; absent labels yield no entry.  The numeric levels are
the fixed constants DEBUG=10, INFO=20, WARNING=30, ERROR=40,
CRITICAL=50. -/
def severity_map (s : String) : Option Nat :=
  if s = "debug" then some 10
  else if s = "info" then some 20
  else if s = "warn" then some 30
  else if s = "warning" then some 30
  else if s = "error" then some 40
  else if s = "fatal" then some 50
  else Option.none

/-- Logger-name resolution in before_send_log: the `logger` field when
truthy, otherwise the `logger.name` attribute looked up on the
`attributes` mapping (defaulting to a fresh empty mapping); the attribute
lookup on a non-mapping value raises. -/
def resolve_logger_name (event : EventDict) : Except String Value :=
  if pyTruthy (dgetD event "logger" (.str "")) then .ok (dgetD event "logger" (.str ""))
  else
    match dgetD event "attributes" (.dict []) with
    | .dict d => .ok (dgetD d "logger.name" (.str ""))
    | _ => .error "AttributeError"

/-- Message resolution for access-log events in before_send_log: the
`body` field when truthy, otherwise the `formatted` entry of the
`logentry` mapping (defaulting to a fresh empty mapping); the lookup on a
non-mapping logentry raises. -/
def resolve_access_message (event : EventDict) : Except String Value :=
  if pyTruthy (dgetD event "body" (.str "")) then .ok (dgetD event "body" (.str ""))
  else
    match dgetD event "logentry" (.dict []) with
    | .dict d => .ok (dgetD d "formatted" (.str ""))
    | _ => .error "AttributeError"

/-- The part of before_send_log after the severity gate: resolves the
logger name, and for the access logger resolves the message and drops the
event when it mentions both the health path and the protocol marker; the
containment test raises on a message that is neither text nor a mapping
(on a mapping it tests key membership). -/
def log_health_check_part (event : EventDict) : Except String (Option EventDict) :=
  match resolve_logger_name event with
  | .error msg => .error msg
  | .ok logger_name =>
    if valueEqStr logger_name "uvicorn.access" then
      match resolve_access_message event with
      | .error msg => .error msg
      | .ok message =>
        match message with
        | .str m =>
          if strOccurs "GET /health" m && strOccurs "HTTP" m then .ok Option.none
          else .ok (some event)
        | .dict d =>
          if dmem d "GET /health" && dmem d "HTTP" then .ok Option.none
          else .ok (some event)
        | _ => .error "TypeError"
    else .ok (some event)

/-- before_send_log: when `severity_text` is present and truthy it must be
text (lower-casing a non-text value raises); its mapped numeric level,
defaulting to INFO for unrecognized labels, is compared against the
configured minimum and the event is dropped when below; otherwise the
health-check part decides. -/
def before_send_log (sentry_log_level : Nat) (event : EventDict) :
    Except String (Option EventDict) :=
  match dget event "severity_text" with
  | some v =>
    if pyTruthy v then
      match v with
      | .str s =>
        if (severity_map (strLower s)).getD 20 < sentry_log_level then .ok Option.none
        else log_health_check_part event
      | _ => .error "AttributeError"
    else log_health_check_part event
  | Option.none => log_health_check_part event

/-- The table mapping numeric logging levels to breadcrumb level labels;
a non-standard numeric level defaults to the info label. -/
def breadcrumb_level_map (n : Nat) : String :=
  if n = 10 then "debug"
  else if n = 20 then "info"
  else if n = 30 then "warning"
  else if n = 40 then "error"
  else if n = 50 then "fatal"
  else "info"

/-- The fixed list of breadcrumb level labels, lowest first. -/
def breadcrumb_levels : List String :=
  ["debug", "info", "warning", "error", "fatal"]

/-- Position of the first occurrence of an element in a list of texts
(the list `index` operation; total here, returning the length when
absent). -/
def list_index (l : List String) (x : String) : Nat :=
  match l with
  | [] => 0
  | y :: ys => if y = x then 0 else 1 + list_index ys x

/-- The suffix of breadcrumb_levels from the configured minimum label. -/
def allowed_breadcrumb_levels (sentry_breadcrumbs_level : Nat) : List String :=
  breadcrumb_levels.drop (list_index breadcrumb_levels (breadcrumb_level_map sentry_breadcrumbs_level))

/-- The level part of before_breadcrumb: a breadcrumb whose `level` entry
is absent or None is kept exactly when the configured minimum is at most
INFO; otherwise it is kept exactly when its level value is a member of
the allowed label suffix (a non-text value is never a member). -/
def crumb_level_part (sentry_breadcrumbs_level : Nat) (crumb : EventDict) :
    Except String (Option EventDict) :=
  match dget crumb "level" with
  | Option.none =>
    .ok (if sentry_breadcrumbs_level ≤ 20 then some crumb else Option.none)
  | some .none =>
    .ok (if sentry_breadcrumbs_level ≤ 20 then some crumb else Option.none)
  | some v =>
    .ok (if (match v with
             | .str s => (allowed_breadcrumb_levels sentry_breadcrumbs_level).contains s
             | _ => false)
         then some crumb else Option.none)

/-- before_breadcrumb: an access-log breadcrumb is dropped when its
message mentions the health path (the containment test raises on a
message value that is neither text nor a mapping); every other breadcrumb
is decided by the level part. -/
def before_breadcrumb (sentry_breadcrumbs_level : Nat) (crumb : EventDict) :
    Except String (Option EventDict) :=
  if valueEqStr (dgetD crumb "category" (.str "")) "uvicorn.access" then
    match dgetD crumb "message" (.str "") with
    | .str m =>
      if strOccurs "GET /health" m then .ok Option.none
      else crumb_level_part sentry_breadcrumbs_level crumb
    | .dict d =>
      if dmem d "GET /health" then .ok Option.none
      else crumb_level_part sentry_breadcrumbs_level crumb
    | _ => .error "TypeError"
  else crumb_level_part sentry_breadcrumbs_level crumb

/-- before_send_transaction: drops a transaction exactly when its name is
the literal health route. -/
def before_send_transaction (event : EventDict) : Option EventDict :=
  if valueEqStr (dgetD event "transaction" (.str "")) "/health" then Option.none
  else some event

/-! ## Embedding of the processing chain assembled by get_logger -/

/-- The repository-defined processors of the shared chain, in the order
get_logger installs them: the normalizer, then the nester, and, only when
a remote endpoint is configured, the trace enricher appended at the end.
Stages that cannot raise are lifted into Except. -/
def shared_processors (dsn : Bool) (ctx : TraceCtx) :
    List (EventDict → Except String EventDict) :=
  [rename_and_flatten_fields, fun e => .ok (nest_custom_fields e)] ++
    (if dsn then [fun e => .ok (add_sentry_trace_id ctx e)] else [])

/-- The repository-defined render-time processors of the formatter, run
after the shared chain: the safe metadata stripper (serialization to a
JSON line follows and is external to the repository). -/
def formatter_processors : List (EventDict → Except String EventDict) :=
  [fun e => .ok (remove_processors_meta_safe e)]

/-- Runs a processor chain left to right, stopping at the first raise. -/
def run_processors : List (EventDict → Except String EventDict) → EventDict →
    Except String EventDict
  | [], e => .ok e
  | p :: ps, e => (p e).bind (run_processors ps)

/-- The full pipeline over the repository-defined stages: the shared
chain followed by the render-time stripper. -/
def pipeline (dsn : Bool) (ctx : TraceCtx) (e : EventDict) : Except String EventDict :=
  run_processors (shared_processors dsn ctx ++ formatter_processors) e

/-- Modelled from the claim of C1 (not from the source): the five stages
run once each in the claimed order normalize, then enrich-with-trace,
then nest-custom-fields, then strip-internal-metadata (serialization,
external to the repository, would follow). -/
def claimed_pipeline (ctx : TraceCtx) (e : EventDict) : Except String EventDict :=
  (rename_and_flatten_fields e).map
    (fun e₁ => remove_processors_meta_safe (nest_custom_fields (add_sentry_trace_id ctx e₁)))

/-! ## Statement-side helper definitions -/

/-- A tracing context carrying a well-formed correlation header: a header
with at least two hyphen-delimited segments. -/
def wellFormedHeader (ctx : TraceCtx) : Bool :=
  match ctx with
  | .header tp => decide (2 ≤ (strSplit '-' tp).length)
  | _ => false

/-- First hyphen-delimited segment of the header carried by a context. -/
def headerSeg1 (ctx : TraceCtx) : String :=
  match ctx with
  | .header tp => ((strSplit '-' tp).get? 0).getD ""
  | _ => ""

/-- Second hyphen-delimited segment of the header carried by a context. -/
def headerSeg2 (ctx : TraceCtx) : String :=
  match ctx with
  | .header tp => ((strSplit '-' tp).get? 1).getD ""
  | _ => ""

/-- The `severity_text` field of an event is absent or falsy. -/
def severityFalsy (e : EventDict) : Prop :=
  dget e "severity_text" = Option.none ∨
    ∃ v, dget e "severity_text" = some v ∧ pyTruthy v = false

/-- The value at a key, when present, is text. -/
def strOrAbsent (e : EventDict) (k : String) : Bool :=
  match dget e k with
  | Option.none => true
  | some (.str _) => true
  | some _ => false

/-- The value at a key, when present, is a mapping. -/
def dictOrAbsent (e : EventDict) (k : String) : Bool :=
  match dget e k with
  | Option.none => true
  | some (.dict _) => true
  | some _ => false

/-- The `severity_text` field, when present and truthy, holds text. -/
def severityShaped (e : EventDict) : Bool :=
  match dget e "severity_text" with
  | Option.none => true
  | some (.str _) => true
  | some v => !pyTruthy v

/-- The `logentry` field, when present, is a mapping whose `formatted`
entry, when present, holds text. -/
def logentryShaped (e : EventDict) : Bool :=
  match dget e "logentry" with
  | Option.none => true
  | some (.dict d) => strOrAbsent d "formatted"
  | some _ => false

/-- Shape conditions under which every stage and filter runs to
completion: the fields the code calls text methods on or containment
tests against hold text when present, and the two fields it calls
mapping lookups on hold mappings when present. -/
def wellShaped (e : EventDict) : Bool :=
  strOrAbsent e "level" &&
  severityShaped e &&
  dictOrAbsent e "attributes" &&
  strOrAbsent e "body" &&
  logentryShaped e &&
  strOrAbsent e "message"

/-! ## Dictionary lemmas -/

theorem dget_dset_self (d : EventDict) (k : String) (v : Value) :
    dget (dset d k v) k = some v := by
  induction d with
  | nil => simp [dget, dset]
  | cons p rest ih =>
    obtain ⟨k₀, v₀⟩ := p
    by_cases h₀ : k₀ = k
    · simp [dset, dget, h₀]
    · simp [dset, dget, h₀, ih]

theorem dget_dset_ne (d : EventDict) (k k' : String) (v : Value) (h : k' ≠ k) :
    dget (dset d k v) k' = dget d k' := by
  have hk : ¬k = k' := fun hh => h hh.symm
  induction d with
  | nil => simp [dget, dset, hk]
  | cons p rest ih =>
    obtain ⟨k₀, v₀⟩ := p
    by_cases h₀ : k₀ = k
    · have h₁ : ¬k₀ = k' := h₀ ▸ hk
      simp [dset, dget, h₀, h₁, hk]
    · by_cases h₁ : k₀ = k'
      · simp [dset, dget, h₀, h₁, h]
      · simp [dset, dget, h₀, h₁, ih]

theorem dget_dpop_self (d : EventDict) (k : String) :
    dget (dpop d k) k = Option.none := by
  induction d with
  | nil => rfl
  | cons p rest ih =>
    obtain ⟨k₀, v₀⟩ := p
    by_cases h₀ : k₀ = k
    · simpa [dpop, List.filter_cons, h₀] using ih
    · simpa [dpop, List.filter_cons, dget, h₀] using ih

theorem dget_dpop_ne (d : EventDict) (k k' : String) (h : k' ≠ k) :
    dget (dpop d k) k' = dget d k' := by
  have hk : ¬k = k' := fun hh => h hh.symm
  induction d with
  | nil => rfl
  | cons p rest ih =>
    obtain ⟨k₀, v₀⟩ := p
    by_cases h₀ : k₀ = k
    · simpa [dpop, List.filter_cons, dget, h₀, hk] using ih
    · by_cases h₁ : k₀ = k'
      · simp [dpop, List.filter_cons, dget, h₀, h₁, h]
      · simpa [dpop, List.filter_cons, dget, h₀, h₁] using ih

theorem dpop_of_absent (d : EventDict) (k : String) (h : ∀ p ∈ d, p.1 ≠ k) :
    dpop d k = d := by
  induction d with
  | nil => rfl
  | cons p rest ih =>
    have h₁ : ¬p.1 = k := h p (List.mem_cons_self p rest)
    have h₂ : ∀ q ∈ rest, q.1 ≠ k := fun q hq => h q (List.mem_cons_of_mem p hq)
    simp only [dpop, List.filter_cons] at ih ⊢
    simp [h₁, ih h₂]

theorem dset_of_absent (d : EventDict) (k : String) (v : Value)
    (h : ∀ p ∈ d, p.1 ≠ k) : dset d k v = d ++ [(k, v)] := by
  induction d with
  | nil => rfl
  | cons p rest ih =>
    obtain ⟨k₀, v₀⟩ := p
    have h₁ : ¬k₀ = k := h (k₀, v₀) (List.mem_cons_self _ rest)
    have h₂ : ∀ q ∈ rest, q.1 ≠ k := fun q hq => h q (List.mem_cons_of_mem _ hq)
    simp [dset, h₁, ih h₂]

theorem dget_append_of_absent (a b : EventDict) (k : String)
    (h : ∀ p ∈ a, p.1 ≠ k) : dget (a ++ b) k = dget b k := by
  induction a with
  | nil => rfl
  | cons p rest ih =>
    obtain ⟨k₀, v₀⟩ := p
    have h₁ : ¬k₀ = k := h (k₀, v₀) (List.mem_cons_self _ rest)
    have h₂ : ∀ q ∈ rest, q.1 ≠ k := fun q hq => h q (List.mem_cons_of_mem _ hq)
    simp [dget, h₁, ih h₂]

/-! ## Claim C1: order of the processing chain -/

/-- C1 (amended): the configured chain equals running normalization, then
nesting of custom fields, then (only when a remote endpoint is
configured) trace enrichment, then the render-time stripping of internal
metadata, once each in that order; the trace enricher is appended after
the nester, not before it as the claim states. -/
theorem C1_chain_order (ctx : TraceCtx) (e : EventDict) :
    pipeline true ctx e =
      (rename_and_flatten_fields e).map
        (fun e₁ => remove_processors_meta_safe (add_sentry_trace_id ctx (nest_custom_fields e₁))) ∧
    pipeline false ctx e =
      (rename_and_flatten_fields e).map
        (fun e₁ => remove_processors_meta_safe (nest_custom_fields e₁)) := by
  constructor <;>
    cases hr : rename_and_flatten_fields e <;>
      simp [pipeline, shared_processors, formatter_processors, run_processors, hr,
        Except.map, Except.bind]

/-- C1 (counterexample): on the empty event with an active trace context
carrying the header "abc-def", the configured chain leaves span_id at top
level, while the five stages in the claimed order (enrichment before
nesting) would move span_id under details; the two runs differ. -/
theorem C1_counterexample :
    pipeline true (TraceCtx.header "abc-def") [] =
      .ok [("trace_id", Value.str "abc"), ("span_id", Value.str "def")] ∧
    claimed_pipeline (TraceCtx.header "abc-def") [] =
      .ok [("trace_id", Value.str "abc"),
           ("details", Value.dict [("span_id", Value.str "def")])] ∧
    pipeline true (TraceCtx.header "abc-def") [] ≠
      claimed_pipeline (TraceCtx.header "abc-def") [] := by
  refine ⟨rfl, rfl, fun h => ?_⟩
  have h₂ : (["trace_id", "span_id"] : List String) = ["trace_id", "details"] :=
    congrArg
      (fun r => match r with
        | Except.ok l => l.map Prod.fst
        | Except.error _ => ([] : List String)) h
  exact absurd h₂ (by decide)

/-! ## Claim C3: the trace enricher -/

/-- C3: the trace enricher sets trace_id and span_id to the first and
second hyphen-delimited segments of the correlation header exactly when
an active tracing context carries a well-formed header (at least two
segments); in every other case it returns the event unchanged. -/
theorem C3_trace_enricher (ctx : TraceCtx) (e : EventDict) :
    (wellFormedHeader ctx = true →
      add_sentry_trace_id ctx e =
        dset (dset e "trace_id" (Value.str (headerSeg1 ctx))) "span_id"
          (Value.str (headerSeg2 ctx))) ∧
    (wellFormedHeader ctx = false → add_sentry_trace_id ctx e = e) := by
  cases ctx with
  | noScope => exact ⟨fun h => by simp [wellFormedHeader] at h, fun _ => rfl⟩
  | lookupError => exact ⟨fun h => by simp [wellFormedHeader] at h, fun _ => rfl⟩
  | noHeader => exact ⟨fun h => by simp [wellFormedHeader] at h, fun _ => rfl⟩
  | header tp =>
    constructor
    · intro h
      simp only [wellFormedHeader, decide_eq_true_eq] at h
      have htp : ¬tp = "" := by
        intro he
        rw [he] at h
        have h1 : (strSplit '-' "").length = 1 := rfl
        omega
      cases hs : strSplit '-' tp with
      | nil => rw [hs] at h; simp at h
      | cons t rest =>
        cases rest with
        | nil => rw [hs] at h; simp at h
        | cons s rest' =>
          simp [add_sentry_trace_id, htp, hs, headerSeg1, headerSeg2]
    · intro h
      simp only [wellFormedHeader, decide_eq_false_iff_not, not_le] at h
      by_cases htp : tp = ""
      · simp [add_sentry_trace_id, htp]
      · cases hs : strSplit '-' tp with
        | nil => simp [add_sentry_trace_id, htp, hs]
        | cons t rest =>
          cases rest with
          | nil => simp [add_sentry_trace_id, htp, hs]
          | cons s rest' => rw [hs] at h; simp at h; omega

/-- C3 (witness): a well-formed header "abc-def" enriches the empty event
with trace_id "abc" and span_id "def"; with no active scope a one-field
event passes through unchanged. -/
theorem C3_trace_enricher_witness :
    add_sentry_trace_id (TraceCtx.header "abc-def") [] =
      [("trace_id", Value.str "abc"), ("span_id", Value.str "def")] ∧
    add_sentry_trace_id TraceCtx.noScope [("a", Value.int 1)] = [("a", Value.int 1)] :=
  ⟨(C3_trace_enricher (TraceCtx.header "abc-def") []).1 rfl,
   (C3_trace_enricher TraceCtx.noScope [("a", Value.int 1)]).2 rfl⟩

/-! ## Lemmas on the field normalizer -/

theorem rename_event_step_dget_other (e : EventDict) (k : String)
    (h₁ : k ≠ "event") (h₂ : k ≠ "message") :
    dget (rename_event_step e) k = dget e k := by
  unfold rename_event_step
  cases he : dget e "event" with
  | none => rfl
  | some v => rw [dget_dset_ne _ _ _ _ h₂, dget_dpop_ne _ _ _ h₁]

theorem rename_event_step_dget_event (e : EventDict) :
    dget (rename_event_step e) "event" = Option.none := by
  unfold rename_event_step
  cases he : dget e "event" with
  | none => exact he
  | some v => rw [dget_dset_ne _ _ _ _ (by decide), dget_dpop_self]

theorem rename_event_step_dget_message (e : EventDict) (v : Value)
    (h : dget e "event" = some v) :
    dget (rename_event_step e) "message" = some v := by
  unfold rename_event_step
  rw [h, dget_dset_self]

theorem rename_event_step_of_absent (e : EventDict)
    (h : dget e "event" = Option.none) : rename_event_step e = e := by
  unfold rename_event_step
  rw [h]

theorem rename_logger_step_dget_other (e : EventDict) (k : String)
    (h : k ≠ "logger_name") :
    dget (rename_logger_step e) k = dget e k := by
  unfold rename_logger_step
  cases he : dget e "logger_name" with
  | none => rfl
  | some v => rw [dget_dset_ne _ _ _ _ h, dget_dpop_ne _ _ _ h]

theorem rename_logger_step_dget_self (e : EventDict) :
    dget (rename_logger_step e) "logger_name" = dget e "logger_name" := by
  unfold rename_logger_step
  cases he : dget e "logger_name" with
  | none => exact he
  | some v => rw [dget_dset_self]

/-- Case analysis on a successful run of the normalizer: either `level`
held text and was moved to `log_level`, or `level` was absent and the
result is the output of the first two blocks. -/
theorem rename_ok_cases (e y : EventDict)
    (h : rename_and_flatten_fields e = Except.ok y) :
    (∃ s, dget (rename_logger_step (rename_event_step e)) "level" = some (Value.str s) ∧
      y = dset (dpop (rename_logger_step (rename_event_step e)) "level") "log_level"
            (Value.str (strUpper s))) ∨
    (dget (rename_logger_step (rename_event_step e)) "level" = Option.none ∧
      y = rename_logger_step (rename_event_step e)) := by
  unfold rename_and_flatten_fields at h
  cases hl : dget (rename_logger_step (rename_event_step e)) "level" with
  | none =>
    rw [hl] at h
    exact Or.inr ⟨rfl, (Except.ok.injEq _ _).mp h |>.symm⟩
  | some v =>
    rw [hl] at h
    cases v with
    | str s => exact Or.inl ⟨s, rfl, ((Except.ok.injEq _ _).mp h).symm⟩
    | int n => exact absurd h (by simp)
    | bool b => exact absurd h (by simp)
    | dict d => exact absurd h (by simp)
    | none => exact absurd h (by simp)

/-- A successful normalizer output contains neither `event` nor `level`. -/
theorem rename_ok_no_event_level (e y : EventDict)
    (h : rename_and_flatten_fields e = Except.ok y) :
    dget y "event" = Option.none ∧ dget y "level" = Option.none := by
  have he₂ : dget (rename_logger_step (rename_event_step e)) "event" = Option.none := by
    rw [rename_logger_step_dget_other _ _ (by decide), rename_event_step_dget_event]
  rcases rename_ok_cases e y h with ⟨s, hl, hy⟩ | ⟨hl, hy⟩
  · subst hy
    constructor
    · rw [dget_dset_ne _ _ _ _ (by decide), dget_dpop_ne _ _ _ (by decide), he₂]
    · rw [dget_dset_ne _ _ _ _ (by decide), dget_dpop_self]
  · subst hy
    exact ⟨he₂, hl⟩

theorem rename_pre_event (e : EventDict) :
    dget (rename_logger_step (rename_event_step e)) "event" = Option.none := by
  rw [rename_logger_step_dget_other _ _ (by decide), rename_event_step_dget_event]

theorem rename_pre_logger (e : EventDict) :
    dget (rename_logger_step (rename_event_step e)) "logger_name" = dget e "logger_name" := by
  rw [rename_logger_step_dget_self,
    rename_event_step_dget_other _ _ (by decide) (by decide)]

theorem rename_pre_level (e : EventDict) :
    dget (rename_logger_step (rename_event_step e)) "level" = dget e "level" := by
  rw [rename_logger_step_dget_other _ _ (by decide),
    rename_event_step_dget_other _ _ (by decide) (by decide)]

theorem rename_pre_message (e : EventDict) (v : Value) (h : dget e "event" = some v) :
    dget (rename_logger_step (rename_event_step e)) "message" = some v := by
  rw [rename_logger_step_dget_other _ _ (by decide)]
  exact rename_event_step_dget_message e v h

/-- The normalizer runs without error on every event whose `level` field
is absent or holds text. -/
theorem rename_total (e : EventDict) (hs : strOrAbsent e "level" = true) :
    ∃ y, rename_and_flatten_fields e = Except.ok y := by
  unfold strOrAbsent at hs
  cases hl : dget e "level" with
  | none =>
    refine ⟨rename_logger_step (rename_event_step e), ?_⟩
    unfold rename_and_flatten_fields
    rw [rename_pre_level, hl]
  | some v =>
    rw [hl] at hs
    cases v with
    | str s =>
      refine ⟨dset (dpop (rename_logger_step (rename_event_step e)) "level")
        "log_level" (Value.str (strUpper s)), ?_⟩
      unfold rename_and_flatten_fields
      rw [rename_pre_level, hl]
    | int n => simp at hs
    | bool b => simp at hs
    | dict d => simp at hs
    | none => simp at hs

/-! ## Claim C5: behaviour of the field normalizer -/

/-- C5: on every successful run, the normalizer leaves no `event` key,
carries the `event` value over to `message`, preserves the `logger_name`
association, replaces `level` with `log_level` holding the upper-cased
original text, and leaves no `level` key; and whenever `level` is absent
or holds text, the normalizer runs without error (so an event missing any
of the three keys is processed without error and the missing keys stay
absent). -/
theorem C5_field_normalizer :
    (∀ e y, rename_and_flatten_fields e = Except.ok y →
      dget y "event" = Option.none ∧
      (∀ v, dget e "event" = some v → dget y "message" = some v) ∧
      dget y "logger_name" = dget e "logger_name" ∧
      (∀ s, dget e "level" = some (Value.str s) →
        dget y "log_level" = some (Value.str (strUpper s))) ∧
      dget y "level" = Option.none) ∧
    (∀ e, strOrAbsent e "level" = true →
      ∃ y, rename_and_flatten_fields e = Except.ok y) := by
  constructor
  · intro e y h
    have hev := rename_pre_event e
    have hlog := rename_pre_logger e
    have hlev := rename_pre_level e
    rcases rename_ok_cases e y h with ⟨s, hl, hy⟩ | ⟨hl, hy⟩
    · subst hy
      refine ⟨?_, ?_, ?_, ?_, ?_⟩
      · rw [dget_dset_ne _ _ _ _ (by decide), dget_dpop_ne _ _ _ (by decide), hev]
      · intro v hv
        rw [dget_dset_ne _ _ _ _ (by decide), dget_dpop_ne _ _ _ (by decide),
          rename_pre_message e v hv]
      · rw [dget_dset_ne _ _ _ _ (by decide), dget_dpop_ne _ _ _ (by decide), hlog]
      · intro s' hs'
        rw [hlev, hs'] at hl
        injection hl with h₁
        injection h₁ with h₂
        subst h₂
        rw [dget_dset_self]
      · rw [dget_dset_ne _ _ _ _ (by decide), dget_dpop_self]
    · subst hy
      refine ⟨hev, ?_, hlog, ?_, hl⟩
      · intro v hv
        exact rename_pre_message e v hv
      · intro s' hs'
        rw [hlev, hs'] at hl
        exact absurd hl (by simp)
  · exact fun e hs => rename_total e hs

/-- C5 (witness): a full three-field event is normalized without error,
and its `log_level` holds the upper-cased level text. -/
theorem C5_field_normalizer_witness :
    rename_and_flatten_fields
        [("event", Value.str "hi"), ("logger_name", Value.str "svc"),
         ("level", Value.str "info")] =
      Except.ok
        [("message", Value.str "hi"), ("logger_name", Value.str "svc"),
         ("log_level", Value.str "INFO")] ∧
    dget [("message", Value.str "hi"), ("logger_name", Value.str "svc"),
         ("log_level", Value.str "INFO")] "log_level" =
      some (Value.str (strUpper "info")) :=
  ⟨rfl,
   (C5_field_normalizer.1
      [("event", Value.str "hi"), ("logger_name", Value.str "svc"),
       ("level", Value.str "info")]
      [("message", Value.str "hi"), ("logger_name", Value.str "svc"),
       ("log_level", Value.str "INFO")] rfl).2.2.2.1 "info" rfl⟩

/-! ## Claim C7: presence of the message key after normalization -/

/-- C7 (counterexample): the normalizer maps the empty event to the empty
event, which contains no `message` key. -/
theorem C7_counterexample :
    rename_and_flatten_fields [] = Except.ok [] ∧
    dmem ([] : EventDict) "message" = false :=
  ⟨rfl, rfl⟩

/-- C7 (amended): after a successful run of the normalizer the output
contains a `message` key exactly when the input contained an `event` key
or a `message` key (in the assembled chain the structured front-end always
supplies `event`, but the stage alone adds no `message` otherwise). -/
theorem C7_message_presence (e y : EventDict)
    (h : rename_and_flatten_fields e = Except.ok y) :
    dmem y "message" = (dmem e "event" || dmem e "message") := by
  have hm : dget (rename_logger_step (rename_event_step e)) "message" =
      (match dget e "event" with
        | some v => some v
        | Option.none => dget e "message") := by
    rw [rename_logger_step_dget_other _ _ (by decide)]
    unfold rename_event_step
    cases he : dget e "event" with
    | none => rfl
    | some v => rw [dget_dset_self]
  rcases rename_ok_cases e y h with ⟨s, hl, hy⟩ | ⟨hl, hy⟩ <;> subst hy
  · rw [dmem, dget_dset_ne _ _ _ _ (by decide), dget_dpop_ne _ _ _ (by decide), hm]
    cases he : dget e "event" <;> simp [dmem, he]
  · rw [dmem, hm]
    cases he : dget e "event" <;> simp [dmem, he]

/-- C7 (witness): an event carrying only `event` yields an output whose
`message` presence equals the disjunction of the input presences. -/
theorem C7_message_presence_witness :
    dmem [("message", Value.str "m")] "message" =
      (dmem [("event", Value.str "m")] "event" ||
        dmem [("event", Value.str "m")] "message") :=
  C7_message_presence [("event", Value.str "m")] [("message", Value.str "m")] rfl

/-! ## Claim C8: idempotence of the field normalizer -/

/-- C8 (counterexample): on the event with keys logger_name then level,
one application yields keys logger_name, log_level, while a second
application moves logger_name behind log_level: the two outputs differ as
ordered mappings, so the normalizer is not idempotent on its output. -/
theorem C8_counterexample :
    rename_and_flatten_fields [("logger_name", Value.str "a"), ("level", Value.str "c")] =
      Except.ok [("logger_name", Value.str "a"), ("log_level", Value.str "C")] ∧
    rename_and_flatten_fields [("logger_name", Value.str "a"), ("log_level", Value.str "C")] =
      Except.ok [("log_level", Value.str "C"), ("logger_name", Value.str "a")] ∧
    ([("logger_name", Value.str "a"), ("log_level", Value.str "C")] : EventDict).map Prod.fst ≠
      ([("log_level", Value.str "C"), ("logger_name", Value.str "a")] : EventDict).map Prod.fst :=
  ⟨rfl, rfl, by decide⟩

/-- C8 (amended): applying the normalizer twice yields the same value at
every key as applying it once (the outputs are equal as unordered
mappings, though the position of logger_name may differ), and an event
containing none of the keys event, logger_name, level is returned
entirely unchanged. -/
theorem C8_idempotence :
    (∀ e y z, rename_and_flatten_fields e = Except.ok y →
      rename_and_flatten_fields y = Except.ok z → ∀ k, dget z k = dget y k) ∧
    (∀ e, dget e "event" = Option.none → dget e "logger_name" = Option.none →
      dget e "level" = Option.none → rename_and_flatten_fields e = Except.ok e) := by
  constructor
  · intro e y z hy hz k
    obtain ⟨hyev, hylev⟩ := rename_ok_no_event_level e y hy
    have h₁ : rename_event_step y = y := rename_event_step_of_absent y hyev
    have h₂ : dget (rename_logger_step (rename_event_step y)) "level" = Option.none := by
      rw [h₁, rename_logger_step_dget_other _ _ (by decide), hylev]
    have hz' : z = rename_logger_step y := by
      rcases rename_ok_cases y z hz with ⟨s, hl, hzz⟩ | ⟨hl, hzz⟩
      · rw [h₂] at hl
        exact absurd hl (by simp)
      · rw [hzz, h₁]
    subst hz'
    by_cases hk : k = "logger_name"
    · subst hk
      exact rename_logger_step_dget_self y
    · exact rename_logger_step_dget_other y k hk
  · intro e he hl hlev
    unfold rename_and_flatten_fields
    have h₃ : rename_logger_step e = e := by
      unfold rename_logger_step
      rw [hl]
    rw [rename_event_step_of_absent e he, h₃, hlev]

/-- C8 (witness): applying the amended idempotence at the counterexample
event and at an event without the three keys. -/
theorem C8_idempotence_witness :
    dget [("log_level", Value.str "C"), ("logger_name", Value.str "a")] "log_level" =
      dget [("logger_name", Value.str "a"), ("log_level", Value.str "C")] "log_level" ∧
    rename_and_flatten_fields [("message", Value.str "m")] =
      Except.ok [("message", Value.str "m")] :=
  ⟨C8_idempotence.1 [("logger_name", Value.str "a"), ("level", Value.str "c")] _ _
      rfl rfl "log_level",
   C8_idempotence.2 [("message", Value.str "m")] rfl rfl rfl⟩

/-! ## Lemmas on the field nester -/

theorem internal_not_standard (k : String) (h : internalKey k = true) :
    standardField k = false := by
  rcases Bool.eq_false_or_eq_true (standardField k) with hq | hq
  · exfalso
    simp [standardField, STANDARD_FIELDS] at hq
    rcases hq with rfl | rfl | rfl | rfl | rfl | rfl <;> exact absurd h (by decide)
  · exact hq

theorem dpop_middle (kept rest : EventDict) (k : String) (v : Value)
    (h₁ : ∀ p ∈ kept, p.1 ≠ k) (h₂ : ∀ p ∈ rest, p.1 ≠ k) :
    dpop (kept ++ (k, v) :: rest) k = kept ++ rest := by
  have e₁ : dpop (kept ++ (k, v) :: rest) k = dpop kept k ++ dpop ((k, v) :: rest) k := by
    simp [dpop]
  have e₂ : dpop ((k, v) :: rest) k = dpop rest k := by
    simp [dpop, List.filter_cons]
  rw [e₁, e₂, dpop_of_absent kept k h₁, dpop_of_absent rest k h₂]

/-- Invariant of the nesting loop: iterating the remaining keys over the
already-kept prefix plus the remaining entries keeps exactly the standard
entries and accumulates exactly the custom entries, in order. -/
theorem nest_loop_spec (suffix : EventDict) :
    ∀ kept det : EventDict,
      ((kept ++ suffix).map Prod.fst).Nodup →
      (∀ p ∈ det, ∀ q ∈ suffix, p.1 ≠ q.1) →
      nest_loop (suffix.map Prod.fst) (kept ++ suffix) det =
        (kept ++ suffix.filter (fun p => standardField p.1),
         det ++ suffix.filter (fun p => !internalKey p.1 && !standardField p.1)) := by
  induction suffix with
  | nil =>
    intro kept det _ _
    simp [nest_loop]
  | cons hd rest ih =>
    intro kept det hnd hdisj
    obtain ⟨k, v⟩ := hd
    rw [show ((kept ++ (k, v) :: rest).map Prod.fst) =
        kept.map Prod.fst ++ k :: rest.map Prod.fst by simp] at hnd
    obtain ⟨hnk, hc, hdisj₂⟩ := List.nodup_append.mp hnd
    obtain ⟨hknotr, hnr⟩ := List.nodup_cons.mp hc
    have hknotk : k ∉ kept.map Prod.fst :=
      fun hk => hdisj₂ hk (List.mem_cons_self _ _)
    have hkk : ∀ p ∈ kept, p.1 ≠ k :=
      fun p hp he => hknotk (he ▸ List.mem_map_of_mem Prod.fst hp)
    have hkr : ∀ p ∈ rest, p.1 ≠ k :=
      fun p hp he => hknotr (he ▸ List.mem_map_of_mem Prod.fst hp)
    have hpop : dpop (kept ++ (k, v) :: rest) k = kept ++ rest :=
      dpop_middle kept rest k v hkk hkr
    have hdisj' : ∀ p ∈ det, ∀ q ∈ rest, p.1 ≠ q.1 :=
      fun p hp q hq => hdisj p hp q (List.mem_cons_of_mem _ hq)
    have hnd' : ((kept ++ rest).map Prod.fst).Nodup := by
      rw [List.map_append]
      exact List.nodup_append.mpr
        ⟨hnk, hnr, fun a ha hb => hdisj₂ ha (List.mem_cons_of_mem _ hb)⟩
    by_cases hik : internalKey k
    · have hsf : standardField k = false := internal_not_standard k hik
      have step : nest_loop (((k, v) :: rest).map Prod.fst) (kept ++ (k, v) :: rest) det =
          nest_loop (rest.map Prod.fst) (kept ++ rest) det := by
        simp [nest_loop, hik, hpop]
      rw [step, ih kept det hnd' hdisj']
      simp [List.filter_cons, hik, hsf]
    · by_cases hsf : standardField k
      · have step : nest_loop (((k, v) :: rest).map Prod.fst) (kept ++ (k, v) :: rest) det =
            nest_loop (rest.map Prod.fst) ((kept ++ [(k, v)]) ++ rest) det := by
          simp [nest_loop, hik, hsf]
        have hnd'' : (((kept ++ [(k, v)]) ++ rest).map Prod.fst).Nodup := by
          rw [show (kept ++ [(k, v)]) ++ rest = kept ++ (k, v) :: rest by simp]
          rw [show ((kept ++ (k, v) :: rest).map Prod.fst) =
            kept.map Prod.fst ++ k :: rest.map Prod.fst by simp]
          exact hnd
        rw [step, ih (kept ++ [(k, v)]) det hnd'' hdisj']
        simp [List.filter_cons, hik, hsf]
      · have hget : dget (kept ++ (k, v) :: rest) k = some v := by
          rw [dget_append_of_absent kept _ k hkk]
          simp [dget]
        have hdet : ∀ p ∈ det, p.1 ≠ k :=
          fun p hp => hdisj p hp (k, v) (List.mem_cons_self _ _)
        have step : nest_loop (((k, v) :: rest).map Prod.fst) (kept ++ (k, v) :: rest) det =
            nest_loop (rest.map Prod.fst) (kept ++ rest) (det ++ [(k, v)]) := by
          simp [nest_loop, hik, hsf, hget, hpop, dset_of_absent det k v hdet]
        have hdisj'' : ∀ p ∈ det ++ [(k, v)], ∀ q ∈ rest, p.1 ≠ q.1 := by
          intro p hp q hq
          rcases List.mem_append.mp hp with hp₁ | hp₂
          · exact hdisj p hp₁ q (List.mem_cons_of_mem _ hq)
          · rw [List.mem_singleton.mp hp₂]
            exact fun he => (hkr q hq) he.symm
        rw [step, ih kept (det ++ [(k, v)]) hnd' hdisj'']
        simp [List.filter_cons, hik, hsf]

theorem dget_mem (e : EventDict) (k : String) (v : Value) (h : dget e k = some v) :
    (k, v) ∈ e := by
  induction e with
  | nil => exact absurd h (by simp [dget])
  | cons q rest ih =>
    obtain ⟨k₀, v₀⟩ := q
    by_cases hk : k₀ = k
    · subst hk
      have hv : v₀ = v := by simpa [dget] using h
      subst hv
      exact List.mem_cons_self _ _
    · simp only [dget, if_neg hk] at h
      exact List.mem_cons_of_mem _ (ih h)

theorem dget_filter_of_mem (e : EventDict) (p : String × Value → Bool) (k : String)
    (v : Value) (h : dget e k = some v) (hp : p (k, v) = true) :
    dget (e.filter p) k = some v := by
  induction e with
  | nil => exact absurd h (by simp [dget])
  | cons q rest ih =>
    obtain ⟨k₀, v₀⟩ := q
    by_cases hk : k₀ = k
    · subst hk
      have hv : v₀ = v := by simpa [dget] using h
      subst hv
      simp [List.filter_cons, hp, dget]
    · have h' : dget rest k = some v := by simpa [dget, hk] using h
      by_cases hq : p (k₀, v₀)
      · simp only [List.filter_cons, hq, if_true]
        simp only [dget, if_neg hk]
        exact ih h'
      · simp only [List.filter_cons, hq]
        simp only [Bool.false_eq_true, if_false]
        exact ih h'

/-- Closed form of the nester on an event with pairwise distinct keys:
the standard entries in order, then, when at least one custom entry
exists, a fresh `details` entry holding exactly the custom entries in
order. -/
theorem nest_custom_fields_eq (e : EventDict) (hnd : (e.map Prod.fst).Nodup) :
    nest_custom_fields e =
      e.filter (fun p => standardField p.1) ++
        (if (e.filter (fun p => !internalKey p.1 && !standardField p.1)).isEmpty then []
         else [("details",
           Value.dict (e.filter (fun p => !internalKey p.1 && !standardField p.1)))]) := by
  have hs := nest_loop_spec e [] [] (by simpa using hnd) (by simp)
  simp only [List.nil_append] at hs
  unfold nest_custom_fields
  rw [hs]
  by_cases hc : (e.filter (fun p => !internalKey p.1 && !standardField p.1)).isEmpty
  · simp [hc]
  · simp only [hc, Bool.false_eq_true, if_false]
    rw [dset_of_absent]
    intro q hq he
    have hstd := (List.mem_filter.mp hq).2
    rw [he] at hstd
    exact absurd hstd (by decide)

/-! ## Claim C4: the field nester -/

/-- C4: on every event with pairwise distinct keys, the nester drops
every key beginning with an underscore, leaves the standard keys at top
level in their original order, and moves every remaining entry, in
original insertion order, into a `details` mapping appended at the end;
when no custom entry exists, no `details` key is emitted at all. -/
theorem C4_field_nester (e : EventDict) (hnd : (e.map Prod.fst).Nodup) :
    nest_custom_fields e =
      e.filter (fun p => standardField p.1) ++
        (if (e.filter (fun p => !internalKey p.1 && !standardField p.1)).isEmpty then []
         else [("details",
           Value.dict (e.filter (fun p => !internalKey p.1 && !standardField p.1)))]) :=
  nest_custom_fields_eq e hnd

/-- C4 (witness): the nester applied to an event with one standard key,
one internal key and one custom key. -/
theorem C4_field_nester_witness :
    (([("timestamp", Value.str "t"), ("_rec", Value.int 1),
       ("foo", Value.str "x")] : EventDict).map Prod.fst).Nodup ∧
    nest_custom_fields
        [("timestamp", Value.str "t"), ("_rec", Value.int 1), ("foo", Value.str "x")] =
      ([("timestamp", Value.str "t"), ("_rec", Value.int 1),
        ("foo", Value.str "x")] : EventDict).filter (fun p => standardField p.1) ++
        (if (([("timestamp", Value.str "t"), ("_rec", Value.int 1),
              ("foo", Value.str "x")] : EventDict).filter
              (fun p => !internalKey p.1 && !standardField p.1)).isEmpty then []
         else [("details",
           Value.dict (([("timestamp", Value.str "t"), ("_rec", Value.int 1),
              ("foo", Value.str "x")] : EventDict).filter
              (fun p => !internalKey p.1 && !standardField p.1)))]) :=
  ⟨by decide,
   C4_field_nester
     [("timestamp", Value.str "t"), ("_rec", Value.int 1), ("foo", Value.str "x")]
     (by decide)⟩

/-! ## Claim C9: a pre-existing details key is treated as custom -/

/-- C9: when an event with pairwise distinct keys already has a
top-level `details` entry, the nester treats it as a custom field: the
output `details` container is freshly built and holds the old entry under
the key `details` inside it. -/
theorem C9_details_is_custom (e : EventDict) (v : Value)
    (hnd : (e.map Prod.fst).Nodup) (h : dget e "details" = some v) :
    ∃ det, dget (nest_custom_fields e) "details" = some (Value.dict det) ∧
      dget det "details" = some v := by
  have hmem : ("details", v) ∈ e := dget_mem e _ v h
  have hpred : (fun p => !internalKey p.1 && !standardField p.1) ("details", v) = true := rfl
  have hcust : ("details", v) ∈
      e.filter (fun p => !internalKey p.1 && !standardField p.1) :=
    List.mem_filter.mpr ⟨hmem, hpred⟩
  have hne : (e.filter (fun p => !internalKey p.1 && !standardField p.1)).isEmpty = false := by
    cases hq : (e.filter (fun p => !internalKey p.1 && !standardField p.1)).isEmpty
    · rfl
    · exact absurd (List.isEmpty_iff.mp hq) (List.ne_nil_of_mem hcust)
  refine ⟨e.filter (fun p => !internalKey p.1 && !standardField p.1), ?_, ?_⟩
  · rw [nest_custom_fields_eq e hnd]
    simp only [hne, Bool.false_eq_true, if_false]
    rw [dget_append_of_absent]
    · simp [dget]
    · intro q hq he
      have hstd := (List.mem_filter.mp hq).2
      rw [he] at hstd
      exact absurd hstd (by decide)
  · exact dget_filter_of_mem e _ "details" v h hpred

/-- C9 (witness): an event whose only entry is a details field yields a
nested details entry inside the fresh details container. -/
theorem C9_details_is_custom_witness :
    ∃ det, dget (nest_custom_fields [("details", Value.str "x")]) "details" =
        some (Value.dict det) ∧ dget det "details" = some (Value.str "x") :=
  C9_details_is_custom [("details", Value.str "x")] (Value.str "x") (by decide) rfl

/-! ## Totality lemmas for the remote-sink filters -/

theorem resolve_logger_name_total (e : EventDict)
    (h : dictOrAbsent e "attributes" = true) :
    ∃ v, resolve_logger_name e = Except.ok v := by
  unfold resolve_logger_name dgetD
  by_cases hl : pyTruthy ((dget e "logger").getD (Value.str ""))
  · exact ⟨(dget e "logger").getD (Value.str ""), by rw [if_pos hl]⟩
  · rw [if_neg hl]
    unfold dictOrAbsent at h
    cases ha : dget e "attributes" with
    | none => exact ⟨Value.str "", rfl⟩
    | some v =>
      rw [ha] at h
      cases v with
      | dict d => exact ⟨(dget d "logger.name").getD (Value.str ""), rfl⟩
      | str s => simp at h
      | int n => simp at h
      | bool b => simp at h
      | none => simp at h

theorem resolve_access_message_str (e : EventDict)
    (h₄ : strOrAbsent e "body" = true) (h₅ : logentryShaped e = true) :
    ∃ m, resolve_access_message e = Except.ok (Value.str m) := by
  unfold resolve_access_message dgetD
  by_cases hb : pyTruthy ((dget e "body").getD (Value.str ""))
  · unfold strOrAbsent at h₄
    cases hbb : dget e "body" with
    | none =>
      rw [hbb] at hb
      exact absurd hb (by decide)
    | some v =>
      rw [hbb] at hb h₄
      cases v with
      | str m =>
        refine ⟨m, ?_⟩
        rw [if_pos hb]
        rfl
      | int n => simp at h₄
      | bool b => simp at h₄
      | dict d => simp at h₄
      | none => simp at h₄
  · rw [if_neg hb]
    unfold logentryShaped at h₅
    cases hle : dget e "logentry" with
    | none => exact ⟨"", rfl⟩
    | some v =>
      rw [hle] at h₅
      cases v with
      | dict d =>
        simp only [logentryShaped] at h₅
        show ∃ m, Except.ok ((dget d "formatted").getD (Value.str "")) =
          Except.ok (Value.str m)
        unfold strOrAbsent at h₅
        cases hf : dget d "formatted" with
        | none => exact ⟨"", rfl⟩
        | some w =>
          rw [hf] at h₅
          cases w with
          | str m => exact ⟨m, rfl⟩
          | int n => simp at h₅
          | bool b => simp at h₅
          | dict d₂ => simp at h₅
          | none => simp at h₅
      | str s => simp at h₅
      | int n => simp at h₅
      | bool b => simp at h₅
      | none => simp at h₅

theorem log_health_check_total (e : EventDict)
    (h₃ : dictOrAbsent e "attributes" = true) (h₄ : strOrAbsent e "body" = true)
    (h₅ : logentryShaped e = true) :
    ∃ r, log_health_check_part e = Except.ok r := by
  obtain ⟨v, hv⟩ := resolve_logger_name_total e h₃
  unfold log_health_check_part
  rw [hv]
  dsimp only
  by_cases hu : valueEqStr v "uvicorn.access"
  · rw [if_pos hu]
    obtain ⟨m, hm⟩ := resolve_access_message_str e h₄ h₅
    rw [hm]
    dsimp only
    by_cases hh : strOccurs "GET /health" m && strOccurs "HTTP" m
    · exact ⟨Option.none, by rw [if_pos hh]⟩
    · exact ⟨some e, by rw [if_neg hh]⟩
  · rw [if_neg hu]
    exact ⟨some e, rfl⟩

theorem before_send_log_total (lvl : Nat) (e : EventDict)
    (h₂ : severityShaped e = true) (h₃ : dictOrAbsent e "attributes" = true)
    (h₄ : strOrAbsent e "body" = true) (h₅ : logentryShaped e = true) :
    ∃ r, before_send_log lvl e = Except.ok r := by
  obtain ⟨r, hr⟩ := log_health_check_total e h₃ h₄ h₅
  unfold before_send_log
  unfold severityShaped at h₂
  cases hs : dget e "severity_text" with
  | none => exact ⟨r, hr⟩
  | some v =>
    rw [hs] at h₂
    cases v with
    | str s =>
      by_cases hp : pyTruthy (Value.str s)
      · by_cases hlt : (severity_map (strLower s)).getD 20 < lvl
        · exact ⟨Option.none, by simp [hp, hlt]⟩
        · exact ⟨r, by simp [hp, hlt, hr]⟩
      · exact ⟨r, by simp [hp, hr]⟩
    | int n =>
      have hp : pyTruthy (Value.int n) = false := by simpa using h₂
      exact ⟨r, by simp [hp, hr]⟩
    | bool b =>
      have hp : pyTruthy (Value.bool b) = false := by simpa using h₂
      exact ⟨r, by simp [hp, hr]⟩
    | dict d =>
      have hp : pyTruthy (Value.dict d) = false := by simpa using h₂
      exact ⟨r, by simp [hp, hr]⟩
    | none => exact ⟨r, by simp [pyTruthy, hr]⟩

theorem crumb_level_part_total (lvl : Nat) (c : EventDict) :
    ∃ r, crumb_level_part lvl c = Except.ok r := by
  unfold crumb_level_part
  cases hl : dget c "level" with
  | none => exact ⟨_, rfl⟩
  | some v => cases v <;> exact ⟨_, rfl⟩

theorem before_breadcrumb_total (lvl : Nat) (c : EventDict)
    (h₆ : strOrAbsent c "message" = true) :
    ∃ r, before_breadcrumb lvl c = Except.ok r := by
  obtain ⟨r, hr⟩ := crumb_level_part_total lvl c
  unfold before_breadcrumb dgetD
  by_cases hc : valueEqStr ((dget c "category").getD (Value.str "")) "uvicorn.access"
  · rw [if_pos hc]
    unfold strOrAbsent at h₆
    cases hm : dget c "message" with
    | none =>
      show ∃ r, (if strOccurs "GET /health" "" then Except.ok Option.none
        else crumb_level_part lvl c) = Except.ok r
      rw [if_neg (by decide : ¬(strOccurs "GET /health" "" = true))]
      exact ⟨r, hr⟩
    | some v =>
      rw [hm] at h₆
      cases v with
      | str m =>
        show ∃ r, (if strOccurs "GET /health" m then Except.ok Option.none
          else crumb_level_part lvl c) = Except.ok r
        by_cases hh : strOccurs "GET /health" m
        · exact ⟨Option.none, by rw [if_pos hh]⟩
        · rw [if_neg hh]
          exact ⟨r, hr⟩
      | int n => simp at h₆
      | bool b => simp at h₆
      | dict d => simp at h₆
      | none => simp at h₆
  · rw [if_neg hc]
    exact ⟨r, hr⟩

/-! ## Claim C2: totality of stages and filter predicates -/

/-- C2 (counterexample): a `level` field holding a number makes the
normalizer raise (calling the upper-casing method of text on a number),
so the pipeline is not total over all possible input events. -/
theorem C2_counterexample :
    rename_and_flatten_fields [("level", Value.int 5)] =
      Except.error "AttributeError" := rfl

/-- C2 (amended): the nester, the metadata stripper and the trace
enricher are total by construction; the normalizer and the event and
breadcrumb filters run without raising on every event whose inspected
fields are well shaped (level, severity_text, body, message and the
formatted logentry entry hold text when consulted; attributes and
logentry hold mappings when consulted); the transaction filter is total
on all events.  On arbitrary events totality fails (see the
counterexample). -/
theorem C2_pipeline_totality :
    (∀ e, wellShaped e = true →
      (∃ y, rename_and_flatten_fields e = Except.ok y) ∧
      (∀ lvl, ∃ r, before_send_log lvl e = Except.ok r) ∧
      (∀ lvl, ∃ r, before_breadcrumb lvl e = Except.ok r)) ∧
    (∀ e, before_send_transaction e = some e ∨
      before_send_transaction e = Option.none) := by
  constructor
  · intro e h
    simp only [wellShaped, Bool.and_eq_true] at h
    obtain ⟨⟨⟨⟨⟨h₁, h₂⟩, h₃⟩, h₄⟩, h₅⟩, h₆⟩ := h
    exact ⟨rename_total e h₁,
      fun lvl => before_send_log_total lvl e h₂ h₃ h₄ h₅,
      fun lvl => before_breadcrumb_total lvl e h₆⟩
  · intro e
    unfold before_send_transaction
    by_cases ht : valueEqStr (dgetD e "transaction" (Value.str "")) "/health"
    · exact Or.inr (by simp [ht])
    · exact Or.inl (by simp [ht])

/-- C2 (witness): a well-shaped event is processed by the normalizer and
both filters without error. -/
theorem C2_pipeline_totality_witness :
    wellShaped [("level", Value.str "info"), ("custom", Value.int 7)] = true ∧
    (∃ y, rename_and_flatten_fields [("level", Value.str "info"), ("custom", Value.int 7)] =
      Except.ok y) ∧
    (∃ r, before_send_log 40 [("level", Value.str "info"), ("custom", Value.int 7)] =
      Except.ok r) :=
  ⟨rfl,
   (C2_pipeline_totality.1 [("level", Value.str "info"), ("custom", Value.int 7)] rfl).1,
   (C2_pipeline_totality.1 [("level", Value.str "info"), ("custom", Value.int 7)] rfl).2.1 40⟩

/-! ## Claim C10: events without severity skip the severity gate -/

/-- C10: when `severity_text` is absent or falsy, the event filter skips
the severity-threshold comparison entirely: its outcome equals the
health-check part alone and is independent of the configured minimum
event severity. -/
theorem C10_severity_skip (e : EventDict) (lvl₁ lvl₂ : Nat)
    (h : severityFalsy e) :
    before_send_log lvl₁ e = log_health_check_part e ∧
    before_send_log lvl₁ e = before_send_log lvl₂ e := by
  have key : ∀ lvl, before_send_log lvl e = log_health_check_part e := by
    intro lvl
    unfold before_send_log
    rcases h with h | ⟨v, hv, hf⟩
    · rw [h]
    · rw [hv]
      simp [hf]
  exact ⟨key lvl₁, (key lvl₁).trans (key lvl₂).symm⟩

/-- C10 (witness): an event with no severity_text is decided identically
under thresholds 40 and 10, by the health-check part alone. -/
theorem C10_severity_skip_witness :
    before_send_log 40 [("logger", Value.str "app")] =
      log_health_check_part [("logger", Value.str "app")] ∧
    before_send_log 40 [("logger", Value.str "app")] =
      before_send_log 10 [("logger", Value.str "app")] :=
  C10_severity_skip [("logger", Value.str "app")] 40 10 (Or.inl rfl)

/-! ## Claim C6: the severity orders used by the two filters -/

theorem breadcrumb_level_map_mem (lvl : Nat) :
    breadcrumb_level_map lvl ∈ breadcrumb_levels := by
  unfold breadcrumb_level_map
  split_ifs <;> decide

theorem allowed_suffix_mem_iff (m s : String) (hm : m ∈ breadcrumb_levels)
    (hs : s ∈ breadcrumb_levels) :
    ((breadcrumb_levels.drop (list_index breadcrumb_levels m)).contains s = true ↔
      list_index breadcrumb_levels m ≤ list_index breadcrumb_levels s) := by
  simp only [breadcrumb_levels, List.mem_cons, List.mem_singleton,
    List.not_mem_nil, or_false] at hm hs
  rcases hm with rfl | rfl | rfl | rfl | rfl <;>
    (rcases hs with rfl | rfl | rfl | rfl | rfl <;> decide)

theorem allowed_subset_levels (lvl : Nat) (s : String)
    (h : (allowed_breadcrumb_levels lvl).contains s = true) :
    s ∈ breadcrumb_levels := by
  unfold allowed_breadcrumb_levels at h
  have hmem : s ∈ breadcrumb_levels.drop
      (list_index breadcrumb_levels (breadcrumb_level_map lvl)) := by
    simpa using h
  exact List.mem_of_mem_drop hmem

theorem before_breadcrumb_not_access (lvl : Nat) (c : EventDict)
    (hc : valueEqStr (dgetD c "category" (Value.str "")) "uvicorn.access" = false) :
    before_breadcrumb lvl c = crumb_level_part lvl c := by
  unfold before_breadcrumb
  rw [if_neg (by simp [hc])]

theorem crumb_level_part_str (lvl : Nat) (c : EventDict) (s : String)
    (hlev : dget c "level" = some (Value.str s)) :
    crumb_level_part lvl c =
      Except.ok (if (allowed_breadcrumb_levels lvl).contains s then some c
        else Option.none) := by
  unfold crumb_level_part
  rw [hlev]

/-- C6 (counterexample): with the minimum breadcrumb severity configured
to debug, a breadcrumb at the unrecognized label "notice" is dropped by
the breadcrumb filter while an info breadcrumb is kept, so an
unrecognized label is not treated as info by the breadcrumb filter. -/
theorem C6_counterexample :
    before_breadcrumb 10 [("level", Value.str "notice")] = Except.ok Option.none ∧
    before_breadcrumb 10 [("level", Value.str "info")] =
      Except.ok (some [("level", Value.str "info")]) :=
  ⟨rfl, rfl⟩

/-- C6 (amended): the event filter maps labels through the fixed table
realizing the order debug < info < warn/warning < error < fatal with
unrecognized labels defaulting to info, and drops an event exactly when
its mapped level is below the configured minimum; the breadcrumb filter
uses the same five-label order through a suffix of the label list,
keeping a recognized label exactly when its rank reaches the configured
minimum's rank, but drops every breadcrumb whose level label is not one
of the five lowercase labels instead of treating it as info. -/
theorem C6_severity_order :
    ((severity_map "debug").getD 20 < (severity_map "info").getD 20 ∧
     (severity_map "info").getD 20 < (severity_map "warning").getD 20 ∧
     (severity_map "warning").getD 20 < (severity_map "error").getD 20 ∧
     (severity_map "error").getD 20 < (severity_map "fatal").getD 20 ∧
     (severity_map "warn").getD 20 = (severity_map "warning").getD 20) ∧
    (∀ s, severity_map s = Option.none →
      (severity_map s).getD 20 = (severity_map "info").getD 20) ∧
    (∀ lvl s e, dget e "severity_text" = some (Value.str s) → s ≠ "" →
      ((severity_map (strLower s)).getD 20 < lvl →
        before_send_log lvl e = Except.ok Option.none) ∧
      (¬(severity_map (strLower s)).getD 20 < lvl →
        before_send_log lvl e = log_health_check_part e)) ∧
    (∀ lvl s crumb,
      valueEqStr (dgetD crumb "category" (Value.str "")) "uvicorn.access" = false →
      dget crumb "level" = some (Value.str s) →
      (s ∈ breadcrumb_levels →
        (before_breadcrumb lvl crumb = Except.ok (some crumb) ↔
          list_index breadcrumb_levels (breadcrumb_level_map lvl) ≤
            list_index breadcrumb_levels s)) ∧
      (s ∉ breadcrumb_levels →
        before_breadcrumb lvl crumb = Except.ok Option.none)) := by
  refine ⟨by decide, ?_, ?_, ?_⟩
  · intro s h
    rw [h]
    rfl
  · intro lvl s e hget hs
    have ht : pyTruthy (Value.str s) = true := by simp [pyTruthy, hs]
    constructor
    · intro hlt
      unfold before_send_log
      rw [hget]
      dsimp only
      rw [if_pos ht, if_pos hlt]
    · intro hge
      unfold before_send_log
      rw [hget]
      dsimp only
      rw [if_pos ht, if_neg hge]
  · intro lvl s crumb hcat hlev
    have hb := before_breadcrumb_not_access lvl crumb hcat
    have hcl := crumb_level_part_str lvl crumb s hlev
    constructor
    · intro hs
      have hm := breadcrumb_level_map_mem lvl
      have hiff := allowed_suffix_mem_iff (breadcrumb_level_map lvl) s hm hs
      rw [hb, hcl]
      constructor
      · intro h
        by_cases hcont : (allowed_breadcrumb_levels lvl).contains s
        · exact hiff.mp hcont
        · rw [if_neg hcont] at h
          exact absurd h (by simp)
      · intro h
        have hcont : (allowed_breadcrumb_levels lvl).contains s = true := hiff.mpr h
        rw [if_pos hcont]
    · intro hs
      have hcont : (allowed_breadcrumb_levels lvl).contains s = false := by
        cases hq : (allowed_breadcrumb_levels lvl).contains s
        · rfl
        · exact absurd (allowed_subset_levels lvl s hq) hs
      have hncont : ¬((allowed_breadcrumb_levels lvl).contains s = true) := by
        rw [hcont]
        exact Bool.false_ne_true
      rw [hb, hcl, if_neg hncont]

/-- C6 (witness): an info event is dropped under an error threshold, and
an error breadcrumb is kept under a warning threshold. -/
theorem C6_severity_order_witness :
    before_send_log 40 [("severity_text", Value.str "info")] = Except.ok Option.none ∧
    before_breadcrumb 30 [("level", Value.str "error")] =
      Except.ok (some [("level", Value.str "error")]) :=
  ⟨(C6_severity_order.2.2.1 40 "info" [("severity_text", Value.str "info")]
      rfl (by decide)).1 (by decide),
   ((C6_severity_order.2.2.2 30 "error" [("level", Value.str "error")]
      rfl rfl).1 (by decide)).mpr (by decide)⟩
